import Mathlib

/-!
Verification of the µOS++ RTOS core sources (intrusive lists, waiting-thread
and clock-thread queues, list guards, mutex unlock, tick conversions and the
memory-resource layer) against their natural-language specification.

Pointers are modelled as natural numbers, with 0 (or Option.none, where the
distinction matters) standing for nullptr. Machine integers are modelled as
Nat with explicit reduction modulo 2^32 or 2^64 where the C code performs
fixed-width arithmetic.
-/

namespace MicroOSPlus

/-! ## Double_list representation (os-lists.h) -/

/-- The core of a double linked list: pointers to next and previous.
A pointer is an Option Nat, none standing for nullptr. -/
structure Double_list_links where
  prev : Option Nat
  next : Option Nat
deriving DecidableEq

/-- From the source (os-lists.h, inline constructor): both pointers are
initialised to nullptr. -/
def Double_list_links_construct : Double_list_links :=
  { prev := none, next := none }

/-- Representation-level view of a Double_list: the head_ pointer and the
count_ field, as declared in os-lists.h. -/
structure Double_list where
  head_ : Option Nat
  count_ : Nat
deriving DecidableEq

/-- A freshly created Double_list. The source header documents the
representation: the initial list status is empty, and for empty lists the
head_ value is nullptr (os-lists.h, documentation of head_ and of the
default constructor). -/
def Double_list_construct : Double_list :=
  { head_ := none, count_ := 0 }

/-- From the source (os-lists.h): empty() returns count_ == 0. -/
def Double_list_is_empty (l : Double_list) : Bool :=
  l.count_ == 0

/-- The claim's reading of the representation, written from the spec's words
for comparison with the source-level definitions: the list keeps a non-null
sentinel head (emptiness is the sentinel pointing to itself rather than a
null head pointer) and every node, once constructed, carries non-null links. -/
def sentinel_representation (l : Double_list) (fresh : Double_list_links) : Prop :=
  l.head_ ≠ none ∧ fresh.prev ≠ none ∧ fresh.next ≠ none

/-! ## Waiting_threads_list (os-lists.h) -/

/-- A node of the waiting-threads list: the referenced thread (its address
modelled as a Nat), the thread's dynamic priority, and a ghost insertion
sequence number used only to state FIFO ordering among equal priorities. -/
structure WNode where
  thread : Nat
  prio : Nat
  seq : Nat
deriving DecidableEq

/-- Modelled from the spec: Waiting_threads_list::add is declared in
os-lists.h but its body is not among the sources; the spec states that add
walks from the head until a strictly lower-priority node is found and
inserts before it, ties falling through (descending dyn_prio, FIFO among
equal priorities). -/
def waiting_add (n : WNode) : List WNode → List WNode
  | [] => [n]
  | x :: xs => if x.prio < n.prio then n :: x :: xs else x :: waiting_add n xs

/-- Build a waiting list by a sequence of add calls starting from the empty
list; the k-th inserted entry (thread, prio) receives ghost sequence number
k, recording insertion order. -/
def waiting_buildAux : Nat → List (Nat × Nat) → List WNode → List WNode
  | _, [], l => l
  | k, e :: rest, l => waiting_buildAux (k + 1) rest (waiting_add ⟨e.1, e.2, k⟩ l)

/-- All entries of the given list added, in order, to an initially empty
Waiting_threads_list. -/
def waiting_build (entries : List (Nat × Nat)) : List WNode :=
  waiting_buildAux 0 entries []

/-- Modelled from the spec: wakeup_one detaches the head node and marks its
thread ready; the detached node and the remaining list are returned
(none on an empty list). -/
def waiting_wakeup_one : List WNode → Option (WNode × List WNode)
  | [] => none
  | x :: xs => some (x, xs)

/-- Strict insertion-order key of the waiting list: either strictly higher
priority, or equal priority and earlier insertion. -/
def wkey (a b : WNode) : Prop :=
  b.prio < a.prio ∨ (a.prio = b.prio ∧ a.seq < b.seq)

/-- Invariant tying a waiting list to the next fresh sequence number k:
the list is strictly ordered by wkey and every ghost sequence number is
below k. -/
def WInv (k : Nat) (l : List WNode) : Prop :=
  l.Pairwise wkey ∧ ∀ m ∈ l, m.seq < k

/-! ## Clock_threads_list (os-lists.h) -/

/-- A node of the clock-threads (timeout) list: the thread and the absolute
timestamp (deadline), mirroring the Clock_node payload in os-lists.h. -/
structure CNode where
  thread : Nat
  timestamp : Nat
deriving DecidableEq

/-- Modelled from the spec: Clock_threads_list::add is declared in
os-lists.h but its body is not among the sources; the spec states ordered
insertion by ascending deadline (a new node goes before the first node with
a strictly greater timestamp, equal timestamps fall through). -/
def clock_add (n : CNode) : List CNode → List CNode
  | [] => [n]
  | x :: xs => if n.timestamp < x.timestamp then n :: x :: xs else x :: clock_add n xs

/-- All entries (thread, timestamp) added, in order, to an initially empty
Clock_threads_list. -/
def clock_build (entries : List (Nat × Nat)) : List CNode :=
  entries.foldl (fun l e => clock_add ⟨e.1, e.2⟩ l) []

/-- Modelled from the spec: check_wakeup(now) repeatedly pops the head while
head.timestamp is at most now, marking each popped thread ready with cause
timeout. Returns the remaining list and the woken threads in pop order. -/
def check_wakeup (now : Nat) : List CNode → List CNode × List Nat
  | [] => ([], [])
  | x :: xs =>
    if x.timestamp ≤ now then
      ((check_wakeup now xs).1, x.thread :: (check_wakeup now xs).2)
    else (x :: xs, [])

/-! ## ListGuard (os-lists.h, inline) -/

/-- Events performed by the ListGuard constructor and destructor: entering
and leaving the interrupts critical section, and the list operations. -/
inductive GuardEv
  | cs_enter
  | cs_exit
  | list_add
  | list_remove
deriving DecidableEq

/-- From the source: the ListGuard constructor creates a Critical_section
and calls list.add(node); the critical section is released when the
constructor's scope ends. -/
def listGuardCtorEvents : List GuardEv :=
  [GuardEv.cs_enter, GuardEv.list_add, GuardEv.cs_exit]

/-- From the source: the ListGuard destructor creates a Critical_section
and calls list_.remove(node_); the critical section is released when the
destructor's scope ends. -/
def listGuardDtorEvents : List GuardEv :=
  [GuardEv.cs_enter, GuardEv.list_remove, GuardEv.cs_exit]

/-- Check of an event trace starting at interrupt-mask depth d: every list
operation happens with the critical section held (depth above zero) and
enters and exits balance back to zero. -/
def opsMasked : List GuardEv → Nat → Bool
  | [], d => d == 0
  | GuardEv.cs_enter :: r, d => opsMasked r (d + 1)
  | GuardEv.cs_exit :: r, d => d != 0 && opsMasked r (d - 1)
  | _ :: r, d => d != 0 && opsMasked r d

/-- From the source: the ListGuard constructor adds the node to the list
(the list state change it performs). -/
def listGuardConstruct (l : List WNode) (n : WNode) : List WNode :=
  waiting_add n l

/-- From the source: the ListGuard destructor removes the node from the
list. Modelled from the spec for the body of Double_list::remove, which is
not among the sources: the node is unlinked from wherever it sits. -/
def listGuardDestruct (l : List WNode) (n : WNode) : List WNode :=
  l.erase n

/-! ## Double_list count bookkeeping (os-lists.h) -/

/-- Abstract state of a Double_list: the nodes actually on the list (in
list order) together with the count_ field. -/
structure DLState where
  nodes : List Nat
  count_ : Nat
deriving DecidableEq

/-- The freshly constructed, empty Double_list. -/
def DLState.initial : DLState := { nodes := [], count_ := 0 }

/-- From the source (os-lists.h): empty() returns count_ == 0. -/
def DLState.is_empty (s : DLState) : Bool := s.count_ == 0

/-- From the source (os-lists.h): length() returns count_. -/
def DLState.length (s : DLState) : Nat := s.count_

/-- An insertion or removal performed on a Double_list; insertion carries
the position chosen by the subclass ordering. -/
inductive DLOp
  | add (node : Nat) (pos : Nat)
  | remove (node : Nat)
deriving DecidableEq

/-- Modelled from the spec: the Double_list bodies are not among the
sources; the source header documents count_ as updated with each insertion
and removal to reflect the actual number of nodes. Insertion links a node
not yet on the list at the subclass-chosen position and increments count_
(an intrusive node is on at most one list position); removal unlinks a node
that is on the list and decrements count_. -/
def DLState.apply (s : DLState) : DLOp → DLState
  | DLOp.add n pos =>
    if n ∈ s.nodes then s
    else { nodes := s.nodes.take pos ++ n :: s.nodes.drop pos, count_ := s.count_ + 1 }
  | DLOp.remove n =>
    if n ∈ s.nodes then { nodes := s.nodes.erase n, count_ := s.count_ - 1 }
    else s

/-! ## Mutex unlock (os-mutex / os-c-api.h) -/

inductive mutex_type
  | normal
  | errorcheck
  | recursive
deriving DecidableEq

inductive mutex_protocol
  | protocol_none
  | inherit
  | protect
deriving DecidableEq

inductive mutex_robustness
  | stalled
  | robust
deriving DecidableEq

/-- Mutex state: owner (none when free), recursion count, and the creation
attributes relevant to unlock. -/
structure Mutex where
  owner : Option Nat
  recursion_count : Nat
  type : mutex_type
  protocol : mutex_protocol
  robustness : mutex_robustness
deriving DecidableEq

/-- POSIX error number EPERM. -/
def EPERM : Nat := 1

/-- Result code for success. -/
def os_ok : Nat := 0

/-- Modelled from the spec: the body of os_mutex_unlock (mutex::unlock) is
not among the sources; the spec states that unlocking a mutex not owned by
the calling thread returns PERM and does not mutate owner or
recursion_count, that for recursive mutexes the count is decremented first,
and that the final release clears the owner. -/
def os_mutex_unlock (t : Nat) (m : Mutex) : Nat × Mutex :=
  if m.owner = some t then
    if m.type = mutex_type.recursive ∧ 1 < m.recursion_count then
      (os_ok, { m with recursion_count := m.recursion_count - 1 })
    else
      (os_ok, { m with owner := none, recursion_count := 0 })
  else (EPERM, m)

/-! ## SysTick conversions (os-c-api.h, inline) -/

/-- Reduction modulo 2^32, the semantics of C uint32_t arithmetic. -/
def u32 (n : Nat) : Nat := n % 4294967296

/-- Reduction modulo 2^64, the semantics of C uint64_t arithmetic. -/
def u64 (n : Nat) : Nat := n % 18446744073709551616

/-- From the source (os-c-api.h): ((microsec * OS_INTEGER_SYSTICK_FREQUENCY_HZ)
+ 1000000ul - 1) / 1000000ul, every operation in uint32_t arithmetic; the
subtraction of 1 is modelled as addition of 2^32 - 1 modulo 2^32. The
configured frequency is a parameter. -/
def os_sysclock_ticks_cast (freq microsec : Nat) : Nat :=
  u32 (u32 (u32 (u32 (u32 microsec * u32 freq) + 1000000) + 4294967295) / 1000000)

/-- From the source (os-c-api.h): the same computation carried out in
uint64_t arithmetic, with the result converted to the uint32_t clock
duration type. -/
def os_sysclock_ticks_cast_long (freq microsec : Nat) : Nat :=
  u32 (u64 (u64 (u64 (u64 microsec * u64 freq) + 1000000) + 18446744073709551615) / 1000000)

/-! ## memory_resource (os-memory.cpp) -/

/-- Abstract internal state of a memory resource (the managed storage). -/
structure memory_resource_state where
  pool : List Nat
deriving DecidableEq

/-- From the source: the default do_max_size returns 0, meaning the size is
not known. -/
def do_max_size : Nat := 0

/-- From the source: the default do_reset does nothing, so the resource
state is unchanged. -/
def do_reset (s : memory_resource_state) : memory_resource_state := s

/-- From the source: the default do_coalesce returns false, meaning the
operation was ineffective. -/
def do_coalesce : Bool := false

/-- From the source: the default do_is_equal compares the address of other
with this. Memory-resource objects are identified by their address,
modelled as a Nat. -/
def do_is_equal (self other : Nat) : Bool := other == self

/-- The global default-resource cell of rtos::memory. The stored value is
the resource address; 0 models a null pointer. -/
structure MemoryGlobals where
  default_resource : Nat
deriving DecidableEq

/-- From the source: set_default_resource saves the old default, installs
the argument unconditionally (no validation, a null pointer included) and
returns the old value. -/
def set_default_resource (res : Nat) (g : MemoryGlobals) : Nat × MemoryGlobals :=
  (g.default_resource, { default_resource := res })

/-! ## Theorems -/

/-- Claim C8: the base memory_resource's default implementations behave as
the contract's unknown/ineffective cases: do_max_size returns 0 (size
unknown), do_reset changes nothing, and do_coalesce returns false
(operation ineffective). -/
theorem memory_resource_defaults :
    do_max_size = 0 ∧ do_coalesce = false ∧ ∀ s : memory_resource_state, do_reset s = s := by
  refine ⟨rfl, rfl, fun s => rfl⟩

/-- Claim C9: set_default_resource installs the argument (a null pointer
included, modelled by 0) as the default resource and returns the previous
default, performing no validation; installing the returned value again
restores the original state (round-trip law). -/
theorem set_default_resource_roundtrip (res : Nat) (g : MemoryGlobals) :
    (set_default_resource res g).1 = g.default_resource ∧
    (set_default_resource res g).2.default_resource = res ∧
    (set_default_resource (set_default_resource res g).1
        (set_default_resource res g).2).2 = g := by
  refine ⟨rfl, rfl, rfl⟩

/-- Claim C10: the default do_is_equal is pointer identity: it returns true
exactly when the other resource is the very same object; hence it is
reflexive and symmetric, and two distinct resources never compare equal. -/
theorem do_is_equal_pointer_identity (a b : Nat) :
    (do_is_equal a b = true ↔ b = a) ∧
    do_is_equal a a = true ∧
    do_is_equal a b = do_is_equal b a ∧
    (a ≠ b → do_is_equal a b = false) := by
  unfold do_is_equal
  refine ⟨beq_iff_eq, beq_self_eq_true a, ?_, ?_⟩
  · by_cases h : a = b
    · subst h; rfl
    · rw [beq_eq_false_iff_ne.mpr (Ne.symm h), beq_eq_false_iff_ne.mpr h]
  · intro h
    exact beq_eq_false_iff_ne.mpr (Ne.symm h)

/-- Witness for C10 at concrete addresses 3 and 5. -/
theorem do_is_equal_pointer_identity_witness :
    do_is_equal 3 5 = false :=
  (do_is_equal_pointer_identity 3 5).2.2.2 (by decide)

/-- Claim C4 counterexample: on this code the freshly constructed (empty)
Double_list has a null head_ pointer and a freshly constructed node has
null prev and next, so the sentinel-based representation asserted by the
claim does not hold. -/
theorem double_list_sentinel_counterexample :
    ¬ sentinel_representation Double_list_construct Double_list_links_construct := by
  intro h
  exact h.1 rfl

/-- Claim C4 (amended): a Double_list represents emptiness by a null head_
pointer together with count_ = 0 (and empty() is then true), and a freshly
constructed Double_list_links node has null prev and next pointers; there
is no sentinel node. -/
theorem double_list_null_representation :
    Double_list_construct.head_ = none ∧
    Double_list_construct.count_ = 0 ∧
    Double_list_is_empty Double_list_construct = true ∧
    Double_list_links_construct.prev = none ∧
    Double_list_links_construct.next = none := by
  refine ⟨rfl, rfl, rfl, rfl, rfl⟩

/-- Claim C3: an unlock of a mutex invoked by a thread that is not the
owner returns the PERM error code and leaves the whole mutex state (owner
and recursion_count in particular) exactly as it was, regardless of the
mutex type, protocol, or robustness. -/
theorem os_mutex_unlock_not_owner (t : Nat) (m : Mutex)
    (h : m.owner ≠ some t) :
    os_mutex_unlock t m = (EPERM, m) := by
  unfold os_mutex_unlock
  rw [if_neg h]

/-- Witness for C3: thread 2 unlocking a mutex owned by thread 1. -/
theorem os_mutex_unlock_not_owner_witness :
    os_mutex_unlock 2
        { owner := some 1, recursion_count := 1, type := mutex_type.normal,
          protocol := mutex_protocol.protocol_none,
          robustness := mutex_robustness.stalled } =
      (EPERM,
        { owner := some 1, recursion_count := 1, type := mutex_type.normal,
          protocol := mutex_protocol.protocol_none,
          robustness := mutex_robustness.stalled }) :=
  os_mutex_unlock_not_owner 2 _ (by decide)

/-- Claim C5 counterexample: at the default 1000 Hz systick frequency the
uint32 computation wraps around for the microsecond value 4294967295, and
the uint64 computation's result is truncated by the uint32 duration cast
for the microsecond value 4294967296000, so neither function equals the
exact round-up conversion on all inputs of its type. -/
theorem os_sysclock_ticks_cast_overflow_counterexample :
    os_sysclock_ticks_cast 1000 4294967295 ≠ (4294967295 * 1000 + 999999) / 1000000 ∧
    os_sysclock_ticks_cast_long 1000 4294967296000 ≠ (4294967296000 * 1000 + 999999) / 1000000 := by
  exact ⟨by decide, by decide⟩

/-- Claim C5 (amended): os_sysclock_ticks_cast equals the exact ceiling of
microsec * freq / 1000000 whenever the intermediate value
microsec * freq + 1000000 does not overflow uint32, and likewise
os_sysclock_ticks_cast_long whenever that value does not overflow uint64
and the resulting tick count fits in the uint32 duration type. -/
theorem os_sysclock_ticks_cast_round_up (freq microsec microsec64 : Nat)
    (h32 : microsec * freq + 1000000 < 4294967296)
    (h64 : microsec64 * freq + 1000000 < 18446744073709551616)
    (hfit : (microsec64 * freq + 999999) / 1000000 < 4294967296) :
    os_sysclock_ticks_cast freq microsec = (microsec * freq + 999999) / 1000000 ∧
    os_sysclock_ticks_cast_long freq microsec64 = (microsec64 * freq + 999999) / 1000000 := by
  constructor
  · have hm : u32 microsec * u32 freq = microsec * freq := by
      rcases Nat.eq_zero_or_pos microsec with h0 | hm0
      · subst h0; simp [u32]
      rcases Nat.eq_zero_or_pos freq with h0 | hf0
      · subst h0; simp [u32]
      have h1 : microsec ≤ microsec * freq := Nat.le_mul_of_pos_right _ hf0
      have h2 : freq ≤ microsec * freq := Nat.le_mul_of_pos_left _ hm0
      unfold u32
      rw [Nat.mod_eq_of_lt (by omega), Nat.mod_eq_of_lt (by omega)]
    unfold os_sysclock_ticks_cast
    rw [hm]
    unfold u32
    rw [Nat.mod_eq_of_lt (show microsec * freq < 4294967296 by omega),
      Nat.mod_eq_of_lt (show microsec * freq + 1000000 < 4294967296 from h32),
      show microsec * freq + 1000000 + 4294967295
          = microsec * freq + 999999 + 4294967296 by omega,
      Nat.add_mod_right,
      Nat.mod_eq_of_lt (show microsec * freq + 999999 < 4294967296 by omega),
      Nat.mod_eq_of_lt
        (show (microsec * freq + 999999) / 1000000 < 4294967296 from
          lt_of_le_of_lt (Nat.div_le_self _ _) (by omega))]
  · have hm : u64 microsec64 * u64 freq = microsec64 * freq := by
      rcases Nat.eq_zero_or_pos microsec64 with h0 | hm0
      · subst h0; simp [u64]
      rcases Nat.eq_zero_or_pos freq with h0 | hf0
      · subst h0; simp [u64]
      have h1 : microsec64 ≤ microsec64 * freq := Nat.le_mul_of_pos_right _ hf0
      have h2 : freq ≤ microsec64 * freq := Nat.le_mul_of_pos_left _ hm0
      unfold u64
      rw [Nat.mod_eq_of_lt (by omega), Nat.mod_eq_of_lt (by omega)]
    unfold os_sysclock_ticks_cast_long
    rw [hm]
    unfold u64 u32
    rw [Nat.mod_eq_of_lt (show microsec64 * freq < 18446744073709551616 by omega),
      Nat.mod_eq_of_lt (show microsec64 * freq + 1000000 < 18446744073709551616 from h64),
      show microsec64 * freq + 1000000 + 18446744073709551615
          = microsec64 * freq + 999999 + 18446744073709551616 by omega,
      Nat.add_mod_right,
      Nat.mod_eq_of_lt (show microsec64 * freq + 999999 < 18446744073709551616 by omega),
      Nat.mod_eq_of_lt hfit]

/-- Witness for C5 at freq 1000 Hz: 5 microseconds and 7 microseconds each
convert to 1 tick (rounded up). -/
theorem os_sysclock_ticks_cast_round_up_witness :
    os_sysclock_ticks_cast 1000 5 = 1 ∧ os_sysclock_ticks_cast_long 1000 7 = 1 := by
  have h := os_sysclock_ticks_cast_round_up 1000 5 7 (by decide) (by decide) (by decide)
  exact ⟨h.1.trans (by decide), h.2.trans (by decide)⟩

/-- One insertion or removal keeps count_ equal to the actual number of
nodes on the list. -/
theorem DLState_apply_count (s : DLState) (op : DLOp)
    (h : s.count_ = s.nodes.length) :
    (s.apply op).count_ = (s.apply op).nodes.length := by
  cases op with
  | add n pos =>
    by_cases hmem : n ∈ s.nodes
    · simp [DLState.apply, hmem, h]
    · simp only [DLState.apply, hmem, if_neg, ite_false]
      simp [List.length_append, List.length_take, List.length_drop, h]
      omega
  | remove n =>
    by_cases hmem : n ∈ s.nodes
    · simp [DLState.apply, hmem, h, List.length_erase_of_mem hmem]
    · simp [DLState.apply, hmem, h]

/-- Any sequence of insertions and removals from the initial empty list
keeps count_ equal to the actual number of nodes. -/
theorem DLState_foldl_count (ops : List DLOp) :
    ∀ s : DLState, s.count_ = s.nodes.length →
      (ops.foldl DLState.apply s).count_ = (ops.foldl DLState.apply s).nodes.length := by
  induction ops with
  | nil => intro s h; exact h
  | cons op rest ih => intro s h; exact ih _ (DLState_apply_count s op h)

/-- Claim C7: after any sequence of insertions and removals starting from a
fresh Double_list, empty() returns true exactly when the list contains no
nodes, and length() returns exactly the number of nodes on the list (the
count_ counter always equals the actual node count). -/
theorem double_list_empty_length (ops : List DLOp) :
    ((ops.foldl DLState.apply DLState.initial).is_empty = true
      ↔ (ops.foldl DLState.apply DLState.initial).nodes = []) ∧
    (ops.foldl DLState.apply DLState.initial).length
      = (ops.foldl DLState.apply DLState.initial).nodes.length := by
  have h := DLState_foldl_count ops DLState.initial rfl
  constructor
  · unfold DLState.is_empty
    rw [beq_iff_eq, h]
    exact List.length_eq_zero
  · exact h

/-- The added node is a member of the list produced by waiting_add. -/
theorem waiting_add_mem_self (n : WNode) (l : List WNode) : n ∈ waiting_add n l := by
  induction l with
  | nil => exact List.mem_singleton.mpr rfl
  | cons x xs ih =>
    unfold waiting_add
    by_cases hp : x.prio < n.prio
    · simp [hp]
    · simp only [hp, ite_false]
      exact List.mem_cons_of_mem _ ih

/-- Removing a node that was not previously on the list, right after adding
it, restores the original list. -/
theorem waiting_add_erase (n : WNode) (l : List WNode) (h : n ∉ l) :
    (waiting_add n l).erase n = l := by
  induction l with
  | nil => simp [waiting_add]
  | cons x xs ih =>
    have hx : n ≠ x := fun he => h (he ▸ List.mem_cons_self x xs)
    have hxs : n ∉ xs := fun hm => h (List.mem_cons_of_mem _ hm)
    have hbeq : (x == n) = false := beq_eq_false_iff_ne.mpr (Ne.symm hx)
    unfold waiting_add
    by_cases hp : x.prio < n.prio
    · simp [hp, List.erase_cons]
    · simp [hp, List.erase_cons, hbeq, ih hxs]

/-- Claim C6: constructing a ListGuard adds the node to the list inside a
critical section and destroying it removes that node inside a critical
section, so a node not previously on the list is on it exactly during the
guard's lifetime and is removed before the suspending call returns. -/
theorem list_guard_scope (l : List WNode) (n : WNode) (h : n ∉ l) :
    opsMasked listGuardCtorEvents 0 = true ∧
    opsMasked listGuardDtorEvents 0 = true ∧
    n ∈ listGuardConstruct l n ∧
    listGuardDestruct (listGuardConstruct l n) n = l ∧
    n ∉ listGuardDestruct (listGuardConstruct l n) n := by
  have he := waiting_add_erase n l h
  refine ⟨rfl, rfl, waiting_add_mem_self n l, he, ?_⟩
  rw [show listGuardDestruct (listGuardConstruct l n) n = l from he]
  exact h

/-- Witness for C6: guarding node (2, prio 7) on a list holding node
(1, prio 5). -/
theorem list_guard_scope_witness :
    (⟨2, 7, 1⟩ : WNode) ∈ listGuardConstruct [⟨1, 5, 0⟩] ⟨2, 7, 1⟩ ∧
    listGuardDestruct (listGuardConstruct [⟨1, 5, 0⟩] ⟨2, 7, 1⟩) ⟨2, 7, 1⟩
      = [⟨1, 5, 0⟩] := by
  have h := list_guard_scope [⟨1, 5, 0⟩] ⟨2, 7, 1⟩ (by decide)
  exact ⟨h.2.2.1, h.2.2.2.1⟩

/-- Membership in the list produced by clock_add. -/
theorem mem_clock_add {y n : CNode} {l : List CNode} :
    y ∈ clock_add n l ↔ y = n ∨ y ∈ l := by
  induction l with
  | nil => simp [clock_add]
  | cons x xs ih =>
    unfold clock_add
    by_cases hp : n.timestamp < x.timestamp
    · simp only [hp, ite_true, List.mem_cons]
    · simp only [hp, ite_false, List.mem_cons, ih]
      tauto

/-- clock_add preserves the ascending-timestamp ordering. -/
theorem clock_add_pairwise (n : CNode) (l : List CNode)
    (h : l.Pairwise (fun a b => a.timestamp ≤ b.timestamp)) :
    (clock_add n l).Pairwise (fun a b => a.timestamp ≤ b.timestamp) := by
  induction l with
  | nil => simp [clock_add]
  | cons x xs ih =>
    rw [List.pairwise_cons] at h
    obtain ⟨hx, hxs⟩ := h
    unfold clock_add
    by_cases hp : n.timestamp < x.timestamp
    · simp only [hp, ite_true]
      rw [List.pairwise_cons]
      constructor
      · intro y hy
        rcases List.mem_cons.mp hy with rfl | hy'
        · exact Nat.le_of_lt hp
        · exact le_trans (Nat.le_of_lt hp) (hx y hy')
      · exact List.pairwise_cons.mpr ⟨hx, hxs⟩
    · simp only [hp, ite_false]
      rw [List.pairwise_cons]
      refine ⟨?_, ih hxs⟩
      intro y hy
      rcases mem_clock_add.mp hy with rfl | hy'
      · exact Nat.le_of_not_lt hp
      · exact hx y hy'

/-- Every sequence of clock_add calls keeps the list ordered by ascending
timestamp. -/
theorem clock_build_pairwise_aux (entries : List (Nat × Nat)) :
    ∀ l, l.Pairwise (fun a b : CNode => a.timestamp ≤ b.timestamp) →
      (entries.foldl (fun l e => clock_add ⟨e.1, e.2⟩ l) l).Pairwise
        (fun a b => a.timestamp ≤ b.timestamp) := by
  induction entries with
  | nil => intro l h; exact h
  | cons e rest ih => intro l h; exact ih _ (clock_add_pairwise _ _ h)

/-- A list built from the empty Clock_threads_list is ordered by ascending
timestamp. -/
theorem clock_build_pairwise (entries : List (Nat × Nat)) :
    (clock_build entries).Pairwise (fun a b => a.timestamp ≤ b.timestamp) :=
  clock_build_pairwise_aux entries [] List.Pairwise.nil

/-- On an ascending-timestamp list, check_wakeup keeps exactly the nodes
with timestamp above now and wakes exactly the threads of the nodes with
timestamp at most now, in list order. -/
theorem check_wakeup_eq (now : Nat) (l : List CNode)
    (h : l.Pairwise (fun a b => a.timestamp ≤ b.timestamp)) :
    (check_wakeup now l).1 = l.filter (fun x => decide (now < x.timestamp)) ∧
    (check_wakeup now l).2
      = (l.filter (fun x => decide (x.timestamp ≤ now))).map CNode.thread := by
  induction l with
  | nil => exact ⟨rfl, rfl⟩
  | cons x xs ih =>
    rw [List.pairwise_cons] at h
    obtain ⟨hx, hxs⟩ := h
    obtain ⟨ih1, ih2⟩ := ih hxs
    by_cases hp : x.timestamp ≤ now
    · have hnl : decide (now < x.timestamp) = false := by
        simp only [decide_eq_false_iff_not, Nat.not_lt]
        exact hp
      constructor
      · show (check_wakeup now (x :: xs)).1 = _
        simp only [check_wakeup, hp, ite_true, List.filter_cons, hnl]
        exact ih1
      · show (check_wakeup now (x :: xs)).2 = _
        simp only [check_wakeup, hp, ite_true, List.filter_cons,
          decide_eq_true hp, List.map_cons]
        exact congrArg _ ih2
    · have hlt : now < x.timestamp := Nat.lt_of_not_le hp
      have hall : ∀ a ∈ x :: xs, now < a.timestamp := by
        intro a ha
        rcases List.mem_cons.mp ha with rfl | ha'
        · exact hlt
        · exact lt_of_lt_of_le hlt (hx a ha')
      constructor
      · show (check_wakeup now (x :: xs)).1 = _
        simp only [check_wakeup, hp, ite_false]
        refine (List.filter_eq_self.mpr ?_).symm
        intro a ha
        exact decide_eq_true (hall a ha)
      · show (check_wakeup now (x :: xs)).2 = _
        simp only [check_wakeup, hp, ite_false]
        rw [List.filter_eq_nil_iff.mpr, List.map_nil]
        intro a ha
        simp only [decide_eq_true_eq, Nat.not_le]
        exact hall a ha

/-- Claim C2: a Clock_threads_list built by add calls is ordered by
ascending timestamp; check_wakeup(now) removes exactly the nodes with
deadline at most now, waking their threads in head (ascending deadline)
order, and every remaining node's deadline is strictly above now. -/
theorem clock_threads_list_timeouts (entries : List (Nat × Nat)) (now : Nat) :
    (clock_build entries).Pairwise (fun a b => a.timestamp ≤ b.timestamp) ∧
    (check_wakeup now (clock_build entries)).1
      = (clock_build entries).filter (fun x => decide (now < x.timestamp)) ∧
    (check_wakeup now (clock_build entries)).2
      = ((clock_build entries).filter
          (fun x => decide (x.timestamp ≤ now))).map CNode.thread ∧
    (∀ x ∈ (check_wakeup now (clock_build entries)).1, now < x.timestamp) ∧
    ((clock_build entries).filter (fun x => decide (x.timestamp ≤ now))).Pairwise
      (fun a b => a.timestamp ≤ b.timestamp) := by
  have hs := clock_build_pairwise entries
  obtain ⟨h1, h2⟩ := check_wakeup_eq now _ hs
  refine ⟨hs, h1, h2, ?_, ?_⟩
  · intro x hx
    rw [h1] at hx
    exact of_decide_eq_true (List.mem_filter.mp hx).2
  · exact List.Pairwise.sublist (List.filter_sublist _) hs

/-- Witness for C2: deadlines 10, 5, 20 checked at tick 10 wake threads 2
then 1 and keep only the node with deadline 20. -/
theorem clock_threads_list_timeouts_witness :
    (check_wakeup 10 (clock_build [(1, 10), (2, 5), (3, 20)])).2 = [2, 1] ∧
    10 < (⟨3, 20⟩ : CNode).timestamp := by
  have h := clock_threads_list_timeouts [(1, 10), (2, 5), (3, 20)] 10
  exact ⟨h.2.2.1.trans (by decide), h.2.2.2.1 ⟨3, 20⟩ (by decide)⟩

/-- Membership in the list produced by waiting_add. -/
theorem mem_waiting_add {y n : WNode} {l : List WNode} :
    y ∈ waiting_add n l ↔ y = n ∨ y ∈ l := by
  induction l with
  | nil => simp [waiting_add]
  | cons x xs ih =>
    unfold waiting_add
    by_cases hp : x.prio < n.prio
    · simp only [hp, ite_true, List.mem_cons]
    · simp only [hp, ite_false, List.mem_cons, ih]
      tauto

/-- waiting_add of a node carrying the next fresh sequence number preserves
the waiting-list invariant: strict ordering by priority-then-insertion and
boundedness of the sequence numbers. -/
theorem waiting_add_winv (k : Nat) (n : WNode) (hn : n.seq = k) :
    ∀ l, WInv k l → WInv (k + 1) (waiting_add n l) := by
  intro l
  induction l with
  | nil =>
    intro _
    constructor
    · simp [waiting_add]
    · intro m hm
      simp only [waiting_add, List.mem_singleton] at hm
      subst hm; omega
  | cons x xs ih =>
    intro h
    obtain ⟨hpw, hsq⟩ := h
    rw [List.pairwise_cons] at hpw
    obtain ⟨hx, hxs⟩ := hpw
    have hxk : x.seq < k := hsq x (List.mem_cons_self x xs)
    have hsq' : ∀ m ∈ xs, m.seq < k := fun m hm => hsq m (List.mem_cons_of_mem x hm)
    obtain ⟨ihp, ihs⟩ := ih ⟨hxs, hsq'⟩
    unfold waiting_add
    by_cases hp : x.prio < n.prio
    · simp only [hp, ite_true]
      constructor
      · rw [List.pairwise_cons]
        constructor
        · intro y hy
          rcases List.mem_cons.mp hy with rfl | hy'
          · exact Or.inl hp
          · rcases hx y hy' with h1 | h2
            · exact Or.inl (lt_trans h1 hp)
            · exact Or.inl (h2.1 ▸ hp)
        · rw [List.pairwise_cons]
          exact ⟨hx, hxs⟩
      · intro m hm
        rcases List.mem_cons.mp hm with rfl | hm'
        · omega
        · have := hsq m hm'
          omega
    · simp only [hp, ite_false]
      constructor
      · rw [List.pairwise_cons]
        constructor
        · intro y hy
          rcases mem_waiting_add.mp hy with rfl | hy'
          · rcases Nat.lt_or_ge y.prio x.prio with hlt | hge
            · exact Or.inl hlt
            · have heq : x.prio = y.prio :=
                Nat.le_antisymm hge (Nat.le_of_not_lt hp)
              exact Or.inr ⟨heq, by omega⟩
          · exact hx y hy'
        · exact ihp
      · intro m hm
        rcases List.mem_cons.mp hm with rfl | hm'
        · omega
        · exact ihs m hm'

/-- Every sequence of waiting_add calls keeps the list strictly ordered by
priority then insertion order. -/
theorem waiting_buildAux_pairwise :
    ∀ (entries : List (Nat × Nat)) (k : Nat) (l : List WNode),
      WInv k l → (waiting_buildAux k entries l).Pairwise wkey := by
  intro entries
  induction entries with
  | nil =>
    intro k l h
    exact h.1
  | cons e rest ih =>
    intro k l h
    exact ih (k + 1) _ (waiting_add_winv k ⟨e.1, e.2, k⟩ rfl l h)

/-- Claim C1: a Waiting_threads_list built by add calls is ordered by
strictly descending dyn_prio with FIFO order (ascending ghost insertion
numbers) among equal priorities, and wakeup_one on a non-empty list
detaches exactly the head node, whose priority is maximal among all
waiting nodes and which, among the maximal ones, was inserted earliest. -/
theorem waiting_threads_list_order (entries : List (Nat × Nat)) :
    (waiting_build entries).Pairwise (fun a b => b.prio ≤ a.prio) ∧
    (waiting_build entries).Pairwise (fun a b => a.prio = b.prio → a.seq < b.seq) ∧
    ∀ x xs, waiting_wakeup_one (waiting_build entries) = some (x, xs) →
      waiting_build entries = x :: xs ∧
      (∀ m ∈ waiting_build entries, m.prio ≤ x.prio) ∧
      (∀ m ∈ waiting_build entries, m.prio = x.prio → x.seq ≤ m.seq) := by
  have hpw : (waiting_build entries).Pairwise wkey :=
    waiting_buildAux_pairwise entries 0 [] ⟨List.Pairwise.nil, by simp⟩
  refine ⟨hpw.imp ?_, hpw.imp ?_, ?_⟩
  · intro a b hab
    rcases hab with h | h
    · exact Nat.le_of_lt h
    · exact Nat.le_of_eq h.1.symm
  · intro a b hab heq
    rcases hab with h | h
    · omega
    · exact h.2
  · intro x xs hsome
    cases hl : waiting_build entries with
    | nil =>
      rw [hl] at hsome
      exact absurd hsome (by simp [waiting_wakeup_one])
    | cons y ys =>
      rw [hl] at hsome
      simp only [waiting_wakeup_one, Option.some.injEq, Prod.mk.injEq] at hsome
      obtain ⟨rfl, rfl⟩ := hsome
      rw [hl] at hpw
      rw [List.pairwise_cons] at hpw
      obtain ⟨hhead, _⟩ := hpw
      refine ⟨rfl, ?_, ?_⟩
      · intro m hm
        rcases List.mem_cons.mp hm with rfl | hm'
        · exact Nat.le_refl _
        · rcases hhead m hm' with h | h
          · exact Nat.le_of_lt h
          · exact Nat.le_of_eq h.1.symm
      · intro m hm heq
        rcases List.mem_cons.mp hm with rfl | hm'
        · exact Nat.le_refl _
        · rcases hhead m hm' with h | h
          · omega
          · exact Nat.le_of_lt h.2

/-- Witness for C1: adding threads 10 (prio 5), 20 (prio 7) and 30
(prio 7) yields the list 20, 30, 10, and every waiting node's priority is
at most the head's priority 7. -/
theorem waiting_threads_list_order_witness :
    waiting_build [(10, 5), (20, 7), (30, 7)] =
      [⟨20, 7, 1⟩, ⟨30, 7, 2⟩, ⟨10, 5, 0⟩] ∧
    ∀ m ∈ waiting_build [(10, 5), (20, 7), (30, 7)],
      m.prio ≤ (⟨20, 7, 1⟩ : WNode).prio := by
  have h := (waiting_threads_list_order [(10, 5), (20, 7), (30, 7)]).2.2
    ⟨20, 7, 1⟩ [⟨30, 7, 2⟩, ⟨10, 5, 0⟩] (by rfl)
  exact ⟨h.1, h.2.1⟩

end MicroOSPlus
